import Mathlib

/-!
Verification of the share-link resolution pipeline of `zoom-rec-dl`.

The TypeScript source is shallowly embedded: JS strings are `List Char`,
JS regular-expression operations are modelled by explicit recursive
scanners with the same left-to-right, backtracking semantics, and the
stateful orchestration loops become explicit state-passing functions.
-/

namespace ZoomRecDl

/-! ## Filename sanitization (`convertToSafeName`, src/miscellaneous.ts)

```ts
export const convertToSafeName = (name: string) =>
  name
    .replaceAll(' / ', ', ')
    .replaceAll(': ', ' - ')
    .replace(illegal-char class, '-')     // regex [<>:"\/\\|?*], global
    .replace(run of 2+ dashes, '-');      // regex [-]{2,}, global
```
-/

/-- JS `String.prototype.replaceAll` with a literal (non-regex) pattern:
scans left to right, replaces each non-overlapping occurrence, and never
rescans the replacement text.  (The empty-pattern corner case of JS is not
needed here: both call sites use non-empty patterns.) -/
def replaceAll (pat repl : List Char) (s : List Char) : List Char :=
  match pat, s with
  | [], s => s
  | _ :: _, [] => []
  | p :: ps, c :: rest =>
    if (p :: ps).isPrefixOf (c :: rest) then
      repl ++ replaceAll (p :: ps) repl (rest.drop ps.length)
    else
      c :: replaceAll (p :: ps) repl rest
termination_by s.length
decreasing_by
  · simp only [List.length_drop, List.length_cons]
    omega
  · simp only [List.length_cons]
    omega

/-- The character class `[<>:"\/\\|?*]` of the third sanitization step. -/
def isIllegalChar (c : Char) : Bool :=
  c = '<' || c = '>' || c = ':' || c = '"' || c = '/' || c = '\\' ||
    c = '|' || c = '?' || c = '*'

/-- `.replace(regex [<>:"\/\\|?*] global, '-')`: a global single-character
class replacement, i.e. a character-wise map. -/
def replaceIllegalChars (s : List Char) : List Char :=
  s.map (fun c => if isIllegalChar c then '-' else c)

/-- `.replace(regex [-]{2,} global, '-')`: every maximal run of two or more dashes is
replaced by a single dash, which is the same as dropping each dash that is
immediately followed by another dash (keeping the first of each run). -/
def collapseDashes (l : List Char) : List Char :=
  match l with
  | [] => []
  | [c] => [c]
  | a :: b :: rest =>
    if a = '-' ∧ b = '-' then collapseDashes (a :: rest)
    else a :: collapseDashes (b :: rest)
termination_by l.length

/-- `convertToSafeName` from src/miscellaneous.ts: the four replacement
steps in source order. -/
def convertToSafeName (name : List Char) : List Char :=
  collapseDashes (replaceIllegalChars
    (replaceAll [':', ' '] [' ', '-', ' ']
      (replaceAll [' ', '/', ' '] [',', ' '] name)))

/-- Whether a string is free of adjacent dash pairs. -/
def noDoubleDash : List Char → Bool
  | [] => true
  | [_] => true
  | a :: b :: rest => if a = '-' ∧ b = '-' then false else noDoubleDash (b :: rest)

lemma replaceAll_slash_id (repl s : List Char) (h : '/' ∉ s) :
    replaceAll [' ', '/', ' '] repl s = s := by
  induction s with
  | nil => rw [replaceAll]
  | cons c rest ih =>
    rw [replaceAll]
    rw [if_neg]
    · rw [ih (fun hm => h (List.mem_cons_of_mem c hm))]
    · intro hpre
      have hpre' : [' ', '/', ' '] <+: c :: rest :=
        List.isPrefixOf_iff_prefix.mp hpre
      obtain ⟨t, ht⟩ := hpre'
      have hthis : c :: rest = ' ' :: '/' :: ' ' :: t := ht.symm
      apply h
      rw [List.cons.injEq] at hthis
      rw [hthis.2]
      exact List.mem_cons_of_mem _ (List.mem_cons_self _ _)

lemma replaceAll_colon_id (repl s : List Char) (h : ':' ∉ s) :
    replaceAll [':', ' '] repl s = s := by
  induction s with
  | nil => rw [replaceAll]
  | cons c rest ih =>
    rw [replaceAll]
    rw [if_neg]
    · rw [ih (fun hm => h (List.mem_cons_of_mem c hm))]
    · intro hpre
      have hpre' : [':', ' '] <+: c :: rest :=
        List.isPrefixOf_iff_prefix.mp hpre
      obtain ⟨t, ht⟩ := hpre'
      have hthis : c :: rest = ':' :: ' ' :: t := ht.symm
      apply h
      rw [List.cons.injEq] at hthis
      rw [hthis.1]
      exact List.mem_cons_self _ _

lemma mem_replaceIllegalChars (s : List Char) (c : Char)
    (h : c ∈ replaceIllegalChars s) : isIllegalChar c = false := by
  obtain ⟨d, _, hd⟩ := List.mem_map.mp h
  by_cases hil : isIllegalChar d
  · rw [if_pos hil] at hd
    rw [← hd]
    decide
  · rw [if_neg hil] at hd
    rw [← hd]
    exact Bool.of_not_eq_true hil

lemma replaceIllegalChars_id (s : List Char)
    (h : ∀ c ∈ s, isIllegalChar c = false) : replaceIllegalChars s = s := by
  unfold replaceIllegalChars
  have hcongr : List.map (fun c => if isIllegalChar c then '-' else c) s =
      List.map id s := by
    apply List.map_congr_left
    intro c hc
    rw [if_neg (by simp [h c hc])]
    rfl
  rw [hcongr, List.map_id]

lemma mem_collapseDashes (l : List Char) (c : Char)
    (h : c ∈ collapseDashes l) : c ∈ l := by
  induction l using collapseDashes.induct with
  | case1 => rw [collapseDashes] at h; exact h
  | case2 d => rw [collapseDashes] at h; exact h
  | case3 a b rest hd ih =>
    rw [collapseDashes, if_pos hd] at h
    have := ih h
    rcases List.mem_cons.mp this with h1 | h2
    · exact h1 ▸ List.mem_cons_self _ _
    · exact List.mem_cons_of_mem _ (List.mem_cons_of_mem _ h2)
  | case4 a b rest hd ih =>
    rw [collapseDashes, if_neg hd] at h
    rcases List.mem_cons.mp h with h1 | h2
    · exact h1 ▸ List.mem_cons_self _ _
    · exact List.mem_cons_of_mem _ (ih h2)

lemma collapseDashes_head (l : List Char) :
    (collapseDashes l).head? = l.head? := by
  induction l using collapseDashes.induct with
  | case1 => rw [collapseDashes]
  | case2 d => rw [collapseDashes]
  | case3 a b rest hd ih =>
    rw [collapseDashes, if_pos hd, ih]
    rfl
  | case4 a b rest hd ih =>
    rw [collapseDashes, if_neg hd]
    rfl

lemma collapseDashes_cons (b : Char) (rest : List Char) :
    ∃ t, collapseDashes (b :: rest) = b :: t := by
  have h := collapseDashes_head (b :: rest)
  cases hc : collapseDashes (b :: rest) with
  | nil => rw [hc] at h; simp at h
  | cons x t =>
    rw [hc] at h
    simp only [List.head?_cons, Option.some.injEq] at h
    exact ⟨t, by rw [h]⟩

lemma noDoubleDash_collapseDashes (l : List Char) :
    noDoubleDash (collapseDashes l) = true := by
  induction l using collapseDashes.induct with
  | case1 => rw [collapseDashes]; rfl
  | case2 d => rw [collapseDashes]; rfl
  | case3 a b rest hd ih =>
    rw [collapseDashes, if_pos hd]
    exact ih
  | case4 a b rest hd ih =>
    rw [collapseDashes, if_neg hd]
    obtain ⟨t, ht⟩ := collapseDashes_cons b rest
    rw [ht]
    rw [ht] at ih
    rw [noDoubleDash, if_neg hd]
    exact ih

lemma collapseDashes_id (l : List Char) (h : noDoubleDash l = true) :
    collapseDashes l = l := by
  induction l using collapseDashes.induct with
  | case1 => rw [collapseDashes]
  | case2 d => rw [collapseDashes]
  | case3 a b rest hd ih =>
    rw [noDoubleDash, if_pos hd] at h
    exact absurd h (by simp)
  | case4 a b rest hd ih =>
    rw [noDoubleDash, if_neg hd] at h
    rw [collapseDashes, if_neg hd, ih h]

lemma convertToSafeName_no_illegal (s : List Char) (c : Char)
    (h : c ∈ convertToSafeName s) : isIllegalChar c = false := by
  unfold convertToSafeName at h
  exact mem_replaceIllegalChars _ c (mem_collapseDashes _ c h)

/-- C8: applying `convertToSafeName` twice yields the same result as
applying it once — the sanitization is idempotent. -/
theorem convertToSafeName_idempotent (s : List Char) :
    convertToSafeName (convertToSafeName s) = convertToSafeName s := by
  have hslash : '/' ∉ convertToSafeName s := by
    intro hm
    have := convertToSafeName_no_illegal s '/' hm
    simp [isIllegalChar] at this
  have hcolon : ':' ∉ convertToSafeName s := by
    intro hm
    have := convertToSafeName_no_illegal s ':' hm
    simp [isIllegalChar] at this
  have hnodd : noDoubleDash (convertToSafeName s) = true := by
    unfold convertToSafeName
    exact noDoubleDash_collapseDashes _
  conv_lhs => rw [convertToSafeName]
  rw [replaceAll_slash_id _ _ hslash,
    replaceAll_colon_id _ _ hcolon,
    replaceIllegalChars_id _ (fun c hc => convertToSafeName_no_illegal s c hc),
    collapseDashes_id _ hnodd]

/-! ## The URL platform primitive and `trimUrlSearchParams` (src/index.js)

```ts
export const trimUrlSearchParams = (urlString: string) => {
  try {
    const url = new URL(urlString);
    url.search = '';
    return url.toString();
  } catch {
    return '';
  }
};
```

`new URL(...)` / `url.toString()` are the host platform's WHATWG URL
primitive, modelled here by an executable parser/serializer for absolute
`scheme://host/path?query#fragment` URLs.  The model keeps exactly the
structure the pipeline relies on (the query is everything between the
first `?` and the first `#`; setting `search` to the empty string drops
the query from the serialization) and omits WHATWG normalization
(percent-encoding, case folding, default ports), which no claim depends
on.  A string that fails to parse corresponds to the `new URL` throw. -/

structure URLRecord where
  scheme : List Char
  host : List Char
  path : List Char
  query : Option (List Char)
  fragment : Option (List Char)
deriving DecidableEq, Repr

/-- Split at the first occurrence of `c`: the part before it and, when `c`
occurs, the part after it. -/
def breakAt (c : Char) : List Char → List Char × Option (List Char)
  | [] => ([], none)
  | x :: xs =>
    if x = c then ([], some xs)
    else
      let r := breakAt c xs
      (x :: r.1, r.2)

/-- Split at the first occurrence of `c`, keeping `c` with the tail. -/
def spanBefore (c : Char) : List Char → List Char × List Char
  | [] => ([], [])
  | x :: xs =>
    if x = c then ([], x :: xs)
    else
      let r := spanBefore c xs
      (x :: r.1, r.2)

def isAsciiLetter (c : Char) : Bool :=
  (decide ('a' ≤ c) && decide (c ≤ 'z')) || (decide ('A' ≤ c) && decide (c ≤ 'Z'))

/-- Longest ASCII-letter run at the front. -/
def spanAlpha : List Char → List Char × List Char
  | [] => ([], [])
  | x :: xs =>
    if isAsciiLetter x then
      let r := spanAlpha xs
      (x :: r.1, r.2)
    else ([], x :: xs)

/-- Model of `new URL(s)` for absolute hierarchical URLs: returns `none`
where the platform constructor throws.  The fragment is everything after
the first `#`, the query everything after the first `?` before that, and
the remainder must have the shape `scheme://host[/path]` with a non-empty
ASCII-letter scheme and a non-empty host. -/
def parseURL (s : List Char) : Option URLRecord :=
  let f := breakAt '#' s
  let q := breakAt '?' f.1
  let sp := spanAlpha q.1
  let hp := spanBefore '/' (sp.2.drop 3)
  if sp.1 ≠ [] ∧ sp.2.take 3 = [':', '/', '/'] ∧ hp.1 ≠ [] then
    some ⟨sp.1, hp.1, hp.2, q.2, f.2⟩
  else none

/-- Model of `url.toString()`. -/
def serializeURL (u : URLRecord) : List Char :=
  u.scheme ++ ':' :: '/' :: '/' :: u.host ++ u.path ++
    (match u.query with | some q => '?' :: q | none => []) ++
    (match u.fragment with | some fr => '#' :: fr | none => [])

/-- Model of the `url.search = ''` assignment: the query becomes null. -/
def removeQuery (u : URLRecord) : URLRecord :=
  { u with query := none }

/-- `trimUrlSearchParams` from src/index.js (utilities): parse, clear the
search, serialize; an unparseable input yields the empty string. -/
def trimUrlSearchParams (s : List Char) : List Char :=
  match parseURL s with
  | some u => serializeURL (removeQuery u)
  | none => []

/-- Whether a string, read back as a URL, carries a query string. -/
def hasQueryString (s : List Char) : Bool :=
  match parseURL s with
  | some u => u.query.isSome
  | none => false

lemma breakAt_fst_not_mem (c : Char) (l : List Char) : c ∉ (breakAt c l).1 := by
  induction l with
  | nil => simp [breakAt]
  | cons x xs ih =>
    by_cases hx : x = c
    · simp [breakAt, hx]
    · simp [breakAt, hx]
      exact ⟨fun he => hx he.symm, ih⟩

lemma breakAt_fst_subset (c x : Char) (l : List Char)
    (h : x ∈ (breakAt c l).1) : x ∈ l := by
  induction l with
  | nil => simp [breakAt] at h
  | cons y ys ih =>
    by_cases hy : y = c
    · simp [breakAt, hy] at h
    · simp [breakAt, hy] at h
      rcases h with h1 | h2
      · exact h1 ▸ List.mem_cons_self _ _
      · exact List.mem_cons_of_mem _ (ih h2)

lemma breakAt_of_not_mem (c : Char) (l : List Char) (h : c ∉ l) :
    breakAt c l = (l, none) := by
  induction l with
  | nil => rfl
  | cons x xs ih =>
    have hx : ¬x = c := fun he => h (he ▸ List.mem_cons_self _ _)
    simp [breakAt, hx, ih (fun hm => h (List.mem_cons_of_mem _ hm))]

lemma breakAt_append (c : Char) (a b : List Char) (h : c ∉ a) :
    breakAt c (a ++ c :: b) = (a, some b) := by
  induction a with
  | nil => simp [breakAt]
  | cons x xs ih =>
    have hx : ¬x = c := fun he => h (he ▸ List.mem_cons_self _ _)
    simp [breakAt, hx]
    have := ih (fun hm => h (List.mem_cons_of_mem _ hm))
    simp [this]

lemma spanBefore_fst_not_mem (c : Char) (l : List Char) :
    c ∉ (spanBefore c l).1 := by
  induction l with
  | nil => simp [spanBefore]
  | cons x xs ih =>
    by_cases hx : x = c
    · simp [spanBefore, hx]
    · simp [spanBefore, hx]
      exact ⟨fun he => hx he.symm, ih⟩

lemma spanBefore_fst_subset (c x : Char) (l : List Char)
    (h : x ∈ (spanBefore c l).1) : x ∈ l := by
  induction l with
  | nil => simp [spanBefore] at h
  | cons y ys ih =>
    by_cases hy : y = c
    · simp [spanBefore, hy] at h
    · simp [spanBefore, hy] at h
      rcases h with h1 | h2
      · exact h1 ▸ List.mem_cons_self _ _
      · exact List.mem_cons_of_mem _ (ih h2)

lemma spanBefore_snd_subset (c x : Char) (l : List Char)
    (h : x ∈ (spanBefore c l).2) : x ∈ l := by
  induction l with
  | nil => simp [spanBefore] at h
  | cons y ys ih =>
    by_cases hy : y = c
    · simpa [spanBefore, hy] using h
    · simp [spanBefore, hy] at h
      exact List.mem_cons_of_mem _ (ih h)

lemma spanBefore_snd_shape (c : Char) (l : List Char) :
    (spanBefore c l).2 = [] ∨ ∃ t, (spanBefore c l).2 = c :: t := by
  induction l with
  | nil => left; rfl
  | cons x xs ih =>
    by_cases hx : x = c
    · right; exact ⟨xs, by simp [spanBefore, hx]⟩
    · simpa [spanBefore, hx] using ih

lemma spanBefore_of_not_mem (c : Char) (l : List Char) (h : c ∉ l) :
    spanBefore c l = (l, []) := by
  induction l with
  | nil => rfl
  | cons x xs ih =>
    have hx : ¬x = c := fun he => h (he ▸ List.mem_cons_self _ _)
    simp [spanBefore, hx, ih (fun hm => h (List.mem_cons_of_mem _ hm))]

lemma spanBefore_append (c : Char) (a b t : List Char) (h : c ∉ a)
    (hb : b = c :: t) : spanBefore c (a ++ b) = (a, b) := by
  induction a with
  | nil => simp [spanBefore, hb]
  | cons x xs ih =>
    have hx : ¬x = c := fun he => h (he ▸ List.mem_cons_self _ _)
    simp [spanBefore, hx]
    have := ih (fun hm => h (List.mem_cons_of_mem _ hm))
    simp [this]

lemma spanAlpha_fst_alpha (l : List Char) :
    ∀ x ∈ (spanAlpha l).1, isAsciiLetter x = true := by
  induction l with
  | nil => simp [spanAlpha]
  | cons y ys ih =>
    by_cases hy : isAsciiLetter y
    · simp [spanAlpha, hy]
      exact ih
    · simp [spanAlpha, hy]

lemma spanAlpha_snd_subset (x : Char) (l : List Char)
    (h : x ∈ (spanAlpha l).2) : x ∈ l := by
  induction l with
  | nil => simp [spanAlpha] at h
  | cons y ys ih =>
    by_cases hy : isAsciiLetter y
    · simp [spanAlpha, hy] at h
      exact List.mem_cons_of_mem _ (ih h)
    · simpa [spanAlpha, hy] using h

lemma spanAlpha_append (a : List Char) (x : Char) (b : List Char)
    (ha : ∀ c ∈ a, isAsciiLetter c = true) (hx : isAsciiLetter x = false) :
    spanAlpha (a ++ x :: b) = (a, x :: b) := by
  induction a with
  | nil => simp [spanAlpha, hx]
  | cons y ys ih =>
    have hy : isAsciiLetter y = true := ha y (List.mem_cons_self _ _)
    simp [spanAlpha, hy]
    have := ih (fun c hc => ha c (List.mem_cons_of_mem _ hc))
    simp [this]

/-- The structural facts that hold of every record produced by `parseURL`. -/
def WellFormedURL (u : URLRecord) : Prop :=
  (∀ c ∈ u.scheme, isAsciiLetter c = true) ∧
  u.scheme ≠ [] ∧ u.host ≠ [] ∧
  '#' ∉ u.host ∧ '?' ∉ u.host ∧ '/' ∉ u.host ∧
  '#' ∉ u.path ∧ '?' ∉ u.path ∧
  (u.path = [] ∨ ∃ t, u.path = '/' :: t)

lemma parseURL_wellFormed (s : List Char) (u : URLRecord)
    (h : parseURL s = some u) : WellFormedURL u := by
  unfold parseURL at h
  set f := breakAt '#' s with hf
  set q := breakAt '?' f.1 with hq
  set sp := spanAlpha q.1 with hsp
  set hp := spanBefore '/' (sp.2.drop 3) with hhp
  by_cases hcond : sp.1 ≠ [] ∧ sp.2.take 3 = [':', '/', '/'] ∧ hp.1 ≠ []
  · rw [if_pos hcond] at h
    have hu : u = ⟨sp.1, hp.1, hp.2, q.2, f.2⟩ := by
      injection h with h3
      exact h3.symm
    subst hu
    have hmemq1 : ∀ x, x ∈ q.1 → x ≠ '?' ∧ x ≠ '#' := by
      intro x hx
      rw [hq] at hx
      constructor
      · intro hcontra
        subst hcontra
        exact breakAt_fst_not_mem '?' f.1 hx
      · intro hcontra
        subst hcontra
        have hmf : '#' ∈ f.1 := breakAt_fst_subset '?' '#' f.1 hx
        rw [hf] at hmf
        exact breakAt_fst_not_mem '#' s hmf
    have hrest2 : ∀ x, x ∈ sp.2.drop 3 → x ∈ q.1 := by
      intro x hx
      exact spanAlpha_snd_subset x q.1 (List.mem_of_mem_drop hx)
    refine ⟨spanAlpha_fst_alpha q.1, hcond.1, hcond.2.2, ?_, ?_, ?_, ?_, ?_, ?_⟩
    · intro hc
      exact (hmemq1 '#' (hrest2 _ (spanBefore_fst_subset '/' _ _ hc))).2 rfl
    · intro hc
      exact (hmemq1 '?' (hrest2 _ (spanBefore_fst_subset '/' _ _ hc))).1 rfl
    · exact spanBefore_fst_not_mem '/' _
    · intro hc
      exact (hmemq1 '#' (hrest2 _ (spanBefore_snd_subset '/' _ _ hc))).2 rfl
    · intro hc
      exact (hmemq1 '?' (hrest2 _ (spanBefore_snd_subset '/' _ _ hc))).1 rfl
    · exact spanBefore_snd_shape '/' _
  · rw [if_neg hcond] at h
    exact absurd h (by simp)

lemma parse_serialize (u : URLRecord) (hwf : WellFormedURL u)
    (hq : u.query = none) : parseURL (serializeURL u) = some u := by
  obtain ⟨sch, host, path, qq, frag⟩ := u
  simp only [URLRecord.query] at hq
  subst hq
  obtain ⟨hsch, hschne, hhostne, hh1, hh2, hh3, hp1, hp2, hpshape⟩ := hwf
  simp only [URLRecord.scheme, URLRecord.host, URLRecord.path,
    URLRecord.fragment] at hsch hschne hhostne hh1 hh2 hh3 hp1 hp2 hpshape
  have hserial : serializeURL ⟨sch, host, path, none, frag⟩ =
      (sch ++ ':' :: '/' :: '/' :: (host ++ path)) ++
        (match frag with | some fr => '#' :: fr | none => []) := by
    unfold serializeURL
    simp
  have hpre_no_hash : '#' ∉ sch ++ ':' :: '/' :: '/' :: (host ++ path) := by
    intro hc
    rcases List.mem_append.mp hc with hc1 | hc1
    · have := hsch '#' hc1; simp [isAsciiLetter] at this
    · rcases hc1 with _ | ⟨_, hc2⟩
      rcases hc2 with _ | ⟨_, hc3⟩
      rcases hc3 with _ | ⟨_, hc4⟩
      rcases List.mem_append.mp hc4 with hc5 | hc5
      · exact hh1 hc5
      · exact hp1 hc5
  have hpre_no_query : '?' ∉ sch ++ ':' :: '/' :: '/' :: (host ++ path) := by
    intro hc
    rcases List.mem_append.mp hc with hc1 | hc1
    · have := hsch '?' hc1; simp [isAsciiLetter] at this
    · rcases hc1 with _ | ⟨_, hc2⟩
      rcases hc2 with _ | ⟨_, hc3⟩
      rcases hc3 with _ | ⟨_, hc4⟩
      rcases List.mem_append.mp hc4 with hc5 | hc5
      · exact hh2 hc5
      · exact hp2 hc5
  have hbreak_hash : breakAt '#' (serializeURL ⟨sch, host, path, none, frag⟩) =
      (sch ++ ':' :: '/' :: '/' :: (host ++ path), frag) := by
    rw [hserial]
    cases frag with
    | none =>
      simp only [List.append_nil]
      exact breakAt_of_not_mem '#' _ hpre_no_hash
    | some fr =>
      exact breakAt_append '#' _ fr hpre_no_hash
  have hbreak_query : breakAt '?' (sch ++ ':' :: '/' :: '/' :: (host ++ path)) =
      (sch ++ ':' :: '/' :: '/' :: (host ++ path), none) :=
    breakAt_of_not_mem '?' _ hpre_no_query
  have hspan : spanAlpha (sch ++ ':' :: '/' :: '/' :: (host ++ path)) =
      (sch, ':' :: '/' :: '/' :: (host ++ path)) :=
    spanAlpha_append sch ':' _ hsch (by decide)
  have hhostpath : spanBefore '/' (host ++ path) = (host, path) := by
    rcases hpshape with hpe | ⟨t, hpt⟩
    · rw [hpe, List.append_nil, spanBefore_of_not_mem '/' host hh3]
    · exact spanBefore_append '/' host path t hh3 hpt
  have hdrop3 : (':' :: '/' :: '/' :: (host ++ path)).drop 3 = host ++ path := rfl
  have htake3 : (':' :: '/' :: '/' :: (host ++ path)).take 3 = [':', '/', '/'] := rfl
  unfold parseURL
  simp only [hbreak_hash, hbreak_query, hspan, hdrop3, htake3, hhostpath]
  rw [if_pos ⟨hschne, trivial, hhostne⟩]

lemma wellFormed_removeQuery (u : URLRecord) (h : WellFormedURL u) :
    WellFormedURL (removeQuery u) := h

/-- C10 helper: the output of `trimUrlSearchParams` never carries a query
string. -/
lemma hasQueryString_trim (s : List Char) :
    hasQueryString (trimUrlSearchParams s) = false := by
  unfold trimUrlSearchParams
  cases hp : parseURL s with
  | none =>
    simp only
    rfl
  | some u =>
    simp only
    unfold hasQueryString
    rw [parse_serialize (removeQuery u)
      (wellFormed_removeQuery u (parseURL_wellFormed s u hp)) rfl]
    rfl

/-- C10: `trimUrlSearchParams` is total; a parseable input is returned with
its query string removed (and still parses, query-free), and an
unparseable input becomes the empty string. -/
theorem trimUrlSearchParams_spec (s : List Char) :
    (parseURL s = none ∧ trimUrlSearchParams s = []) ∨
    (∃ u, parseURL s = some u ∧
      trimUrlSearchParams s = serializeURL (removeQuery u) ∧
      parseURL (trimUrlSearchParams s) = some (removeQuery u) ∧
      hasQueryString (trimUrlSearchParams s) = false) := by
  cases hp : parseURL s with
  | none =>
    left
    exact ⟨rfl, by unfold trimUrlSearchParams; rw [hp]⟩
  | some u =>
    right
    refine ⟨u, rfl, ?_, ?_, hasQueryString_trim s⟩
    · unfold trimUrlSearchParams
      rw [hp]
    · unfold trimUrlSearchParams
      rw [hp]
      simp only
      exact parse_serialize (removeQuery u)
        (wellFormed_removeQuery u (parseURL_wellFormed s u hp)) rfl

/-! ## Failure records (src/index.ts lines 255-258 and 274)

```ts
failedAttempts.push(
  trimUrlSearchParams(recShareUrl) + '\n' + trimUrlSearchParams(mediaUrl),
);
...
failedAttempts.push(trimUrlSearchParams(recShareUrl));
```
-/

/-- The entry pushed to `failedAttempts` when one media item fails. -/
def failedAttemptMediaEntry (recShareUrl mediaUrl : List Char) : List Char :=
  trimUrlSearchParams recShareUrl ++ '\n' :: trimUrlSearchParams mediaUrl

/-- The entry pushed to `failedAttempts` when resolving a share link fails. -/
def failedAttemptShareEntry (recShareUrl : List Char) : List Char :=
  trimUrlSearchParams recShareUrl

/-- C4: every URL written into a failure record — the originating share
link, and the media URL for per-media-item failures — passes through
`trimUrlSearchParams` first, so the recorded string carries no query
string (and hence no `pwd` password parameter). -/
theorem failedAttempts_query_stripped (recShareUrl mediaUrl : List Char) :
    failedAttemptShareEntry recShareUrl = trimUrlSearchParams recShareUrl ∧
    failedAttemptMediaEntry recShareUrl mediaUrl =
      trimUrlSearchParams recShareUrl ++ '\n' :: trimUrlSearchParams mediaUrl ∧
    hasQueryString (trimUrlSearchParams recShareUrl) = false ∧
    hasQueryString (trimUrlSearchParams mediaUrl) = false :=
  ⟨rfl, rfl, hasQueryString_trim _, hasQueryString_trim _⟩

/-! ## Cookie extraction (src/index.ts lines 76 and 92-96)

```ts
headers.set('cookie', '');                       // per ShareLink, line 76
...
const setCookieHeaders = shareInfoResponse.headers
  .get('set-cookie')
  ?.match(regex);                                // (_zm_ssid|cred)=([^;]+) global
if (setCookieHeaders) headers.set('cookie', setCookieHeaders.join('; '));
```

The global regex scan is modelled by a left-to-right scanner that, at each
position, tries the alternative `_zm_ssid` then `cred`, then `=`, then a
non-empty greedy run of non-`;` characters, and resumes after each match.
The jar is the list of `name=value` pairs the scan produced. -/

/-- One cookie-name alternative at the current position: returns the
matched name and the text after the `=`. -/
def matchCookieName (l : List Char) : Option (List Char × List Char) :=
  match l with
  | '_' :: 'z' :: 'm' :: '_' :: 's' :: 's' :: 'i' :: 'd' :: '=' :: rest =>
    some (['_', 'z', 'm', '_', 's', 's', 'i', 'd'], rest)
  | 'c' :: 'r' :: 'e' :: 'd' :: '=' :: rest =>
    some (['c', 'r', 'e', 'd'], rest)
  | _ => none

/-- The `[^;]+` value part: greedy, at least one character. -/
def takeCookieValue (l : List Char) : Option (List Char × List Char) :=
  let v := l.takeWhile (fun c => c ≠ ';')
  if v = [] then none else some (v, l.drop v.length)

/-- A full `(_zm_ssid|cred)=([^;]+)` match anchored at the head. -/
def cookieMatchAt (l : List Char) : Option ((List Char × List Char) × List Char) :=
  match matchCookieName l with
  | none => none
  | some (n, r1) =>
    match takeCookieValue r1 with
    | none => none
    | some (v, r2) => some ((n, v), r2)

/-- Fuel-indexed global scan; one unit of fuel per input position, which
is enough because every match consumes at least one character. -/
def scanCookiesFuel : Nat → List Char → List (List Char × List Char)
  | 0, _ => []
  | _ + 1, [] => []
  | fuel + 1, c :: rest =>
    match cookieMatchAt (c :: rest) with
    | some (p, remaining) => p :: scanCookiesFuel fuel remaining
    | none => scanCookiesFuel fuel rest

/-- All `(_zm_ssid|cred)=([^;]+)` matches of a Set-Cookie header string,
in order. -/
def scanCookies (l : List Char) : List (List Char × List Char) :=
  scanCookiesFuel l.length l

/-- The jar merged at line 96: when the header is absent, or carries no
recognized cookie, the jar stays as reset at line 76 (empty). -/
def cookieJarAfterShareInfo (setCookie : Option (List Char)) :
    List (List Char × List Char) :=
  match setCookie with
  | none => []
  | some h => scanCookies h

/-- The cookie jar in effect at the k-th request of one ShareLink's
session: request 0 is the share-info request itself (after the per-link
reset of line 76); every later request of the session sees the jar merged
at line 96, which no other statement mutates. -/
def cookieJarAtRequest (setCookie : Option (List Char)) (k : Nat) :
    List (List Char × List Char) :=
  if k = 0 then [] else cookieJarAfterShareInfo setCookie

lemma cookieMatchAt_name (l : List Char) (n v : List Char) (r : List Char)
    (h : cookieMatchAt l = some ((n, v), r)) :
    n = ['_', 'z', 'm', '_', 's', 's', 'i', 'd'] ∨ n = ['c', 'r', 'e', 'd'] := by
  unfold cookieMatchAt at h
  cases hm : matchCookieName l with
  | none => rw [hm] at h; exact absurd h (by simp)
  | some nr =>
    rw [hm] at h
    obtain ⟨n0, r1⟩ := nr
    dsimp only at h
    cases hv : takeCookieValue r1 with
    | none => rw [hv] at h; exact absurd h (by simp)
    | some vr =>
      rw [hv] at h
      dsimp only at h
      obtain ⟨v0, r2⟩ := vr
      simp only [Option.some.injEq, Prod.mk.injEq] at h
      have hn0 : n0 = n := h.1.1
      unfold matchCookieName at hm
      split at hm
      · left
        rw [← hn0]
        injection hm with hm1
        injection hm1 with hm2 hm3
        exact hm2.symm ▸ rfl
      · right
        rw [← hn0]
        injection hm with hm1
        injection hm1 with hm2 hm3
        exact hm2.symm ▸ rfl
      · exact absurd hm (by simp)

lemma scanCookiesFuel_names (fuel : Nat) (l : List Char)
    (p : List Char × List Char) (h : p ∈ scanCookiesFuel fuel l) :
    p.1 = ['_', 'z', 'm', '_', 's', 's', 'i', 'd'] ∨ p.1 = ['c', 'r', 'e', 'd'] := by
  induction fuel generalizing l with
  | zero => simp [scanCookiesFuel] at h
  | succ fuel ih =>
    cases l with
    | nil => simp [scanCookiesFuel] at h
    | cons c rest =>
      rw [scanCookiesFuel] at h
      cases hm : cookieMatchAt (c :: rest) with
      | none =>
        rw [hm] at h
        exact ih rest h
      | some pr =>
        rw [hm] at h
        obtain ⟨⟨n, v⟩, remaining⟩ := pr
        rcases List.mem_cons.mp h with h1 | h2
        · rw [h1]
          exact cookieMatchAt_name (c :: rest) n v remaining hm
        · exact ih remaining h2

/-- C3: the session's cookie jar starts empty for every ShareLink, and
after the share-info step it contains at most the cookie names `_zm_ssid`
and `cred` — whatever else the upstream Set-Cookie header carries — and
this subset invariant persists for every subsequent request of the
session. -/
theorem cookie_jar_two_names (setCookie : Option (List Char)) :
    cookieJarAtRequest setCookie 0 = [] ∧
    ∀ (k : Nat) (p : List Char × List Char),
      p ∈ cookieJarAtRequest setCookie k →
      p.1 = ['_', 'z', 'm', '_', 's', 's', 'i', 'd'] ∨ p.1 = ['c', 'r', 'e', 'd'] := by
  constructor
  · rfl
  · intro k p hp
    unfold cookieJarAtRequest at hp
    by_cases hk : k = 0
    · rw [if_pos hk] at hp
      simp at hp
    · rw [if_neg hk] at hp
      unfold cookieJarAfterShareInfo at hp
      cases setCookie with
      | none => simp at hp
      | some h => exact scanCookiesFuel_names _ _ p hp

/-- Witness for C3 at a concrete Set-Cookie header that also sets two
unrelated cookies: the scan keeps only the recognized names. -/
theorem cookie_jar_two_names_witness :
    (['_', 'z', 'm', '_', 's', 's', 'i', 'd'], ['a', 'b', 'c']).1 =
        ['_', 'z', 'm', '_', 's', 's', 'i', 'd'] ∨
      (['_', 'z', 'm', '_', 's', 's', 'i', 'd'], ['a', 'b', 'c']).1 =
        ['c', 'r', 'e', 'd'] :=
  (cookie_jar_two_names (some ("foo=1; _zm_ssid=abc; cred=xyz; bar=2".data))).2
    1 (['_', 'z', 'm', '_', 's', 's', 'i', 'd'], ['a', 'b', 'c']) (by decide)

/-! ## Share-info result checks (src/index.ts lines 98-112)

```ts
const { result: shareInfo } = await shareInfoResponse.json();
if (!shareInfo)
  throw new Error('Recording does not exist. ...');
if (shareInfo.hasValidToken === false)
  throw new Error('Valid token is not found. ...');
if (!shareInfo.redirectUrl) throw new Error('Record play URL is not found.');
```
-/

structure ShareInfo where
  hasValidToken : Option Bool
  pwd : Option (List Char)
  redirectUrl : Option (List Char)
deriving DecidableEq, Repr

/-- JS falsiness of an optional string field: absent or empty. -/
def jsFalsyString : Option (List Char) → Bool
  | none => true
  | some s => s.isEmpty

def isOkE {ε α : Type} : Except ε α → Bool
  | .ok _ => true
  | .error _ => false

/-- The three sequential guards of lines 106-112: a `null` result, a
strictly-`false` `hasValidToken`, and a falsy `redirectUrl`, in source
order; a passing result is handed on to the play-page fetch. -/
def shareInfoCheck (result : Option ShareInfo) : Except (List Char) ShareInfo :=
  match result with
  | none =>
    .error ("Recording does not exist. Check if the URL requires a password.".data)
  | some si =>
    if si.hasValidToken = some false then
      .error ("Valid token is not found. Check if the URL requires additional actions.".data)
    else if jsFalsyString si.redirectUrl then
      .error ("Record play URL is not found.".data)
    else
      .ok si

/-- C5: given a parseable share-info body, the check fails exactly when
the result is null (recording does not exist), or the valid-token flag is
present and equal to `false`, or the redirect URL is absent or empty;
otherwise the very same ShareInfo proceeds to the play-page fetch. -/
theorem shareInfoCheck_spec (result : Option ShareInfo) :
    (isOkE (shareInfoCheck result) = false ↔
      result = none ∨ ∃ si, result = some si ∧
        (si.hasValidToken = some false ∨
          si.redirectUrl = none ∨ si.redirectUrl = some [])) ∧
    (∀ si, result = some si → isOkE (shareInfoCheck result) = true →
      shareInfoCheck result = Except.ok si) := by
  constructor
  · cases result with
    | none => simp [shareInfoCheck, isOkE]
    | some si =>
      obtain ⟨tok, pwd, redir⟩ := si
      constructor
      · intro hfail
        right
        refine ⟨⟨tok, pwd, redir⟩, rfl, ?_⟩
        by_cases htok : tok = some false
        · exact Or.inl htok
        · right
          rw [shareInfoCheck, if_neg htok] at hfail
          by_cases hred : jsFalsyString redir
          · cases redir with
            | none => exact Or.inl rfl
            | some s =>
              right
              simp [jsFalsyString, List.isEmpty_iff] at hred
              rw [hred]
          · rw [if_neg hred] at hfail
            exact absurd hfail (by simp [isOkE])
      · intro hconds
        rcases hconds with hnone | ⟨si2, hsi2, hcond⟩
        · exact absurd hnone (by simp)
        · have hsi2e : si2 = ⟨tok, pwd, redir⟩ := by
            injection hsi2 with h1
            exact h1.symm
          subst hsi2e
          rcases hcond with htok | hred | hred
          · simp only [shareInfoCheck]
            rw [if_pos htok]
            rfl
          · simp only [shareInfoCheck]
            by_cases htok : tok = some false
            · rw [if_pos htok]; rfl
            · rw [if_neg htok,
                if_pos (show jsFalsyString redir = true by
                  rw [show redir = none from hred]; rfl)]
              rfl
          · simp only [shareInfoCheck]
            by_cases htok : tok = some false
            · rw [if_pos htok]; rfl
            · rw [if_neg htok,
                if_pos (show jsFalsyString redir = true by
                  rw [show redir = some [] from hred]; rfl)]
              rfl
  · intro si hres hok
    subst hres
    rw [shareInfoCheck]
    rw [shareInfoCheck] at hok
    by_cases htok : si.hasValidToken = some false
    · rw [if_pos htok] at hok
      exact absurd hok (by simp [isOkE])
    · rw [if_neg htok] at hok
      rw [if_neg htok]
      by_cases hred : jsFalsyString si.redirectUrl
      · rw [if_pos hred] at hok
        exact absurd hok (by simp [isOkE])
      · rw [if_neg hred]

/-- Witness for C5: a result with a password echo and a non-empty
redirect URL passes the checks and is handed on unchanged. -/
theorem shareInfoCheck_spec_witness :
    shareInfoCheck (some ⟨none, some ['x'], some ['/', 'p']⟩) =
      Except.ok ⟨none, some ['x'], some ['/', 'p']⟩ :=
  (shareInfoCheck_spec (some ⟨none, some ['x'], some ['/', 'p']⟩)).2
    ⟨none, some ['x'], some ['/', 'p']⟩ rfl (by decide)

/-! ## Media-URL extraction (src/index.ts lines 141-148 and 172-177)

```ts
const mediaUrls = new Set(
  Object.values(playInfo).filter(
    (v): v is string =>
      typeof v === 'string' && mediaUrlRegex.test(v),
  ),
);
```

where `mediaUrlRegex` is anchored: `https:` then two slashes, then
`ssrweb.zoom.us` (the two dots are regex wildcards), a slash, one or more
non-whitespace characters, a wildcard followed by `mp4` or `m4a`, then
zero or more non-whitespace characters up to the end. The backtracking
engine accepts exactly the strings that admit such a decomposition. -/

/-- The JS `\s` class (ECMAScript WhiteSpace plus LineTerminator). -/
def isJsWhitespace (c : Char) : Bool :=
  decide (c.val = 0x09 ∨ c.val = 0x0a ∨ c.val = 0x0b ∨ c.val = 0x0c ∨
    c.val = 0x0d ∨ c.val = 0x20 ∨ c.val = 0xa0 ∨ c.val = 0x1680 ∨
    (0x2000 ≤ c.val ∧ c.val ≤ 0x200a) ∨ c.val = 0x2028 ∨ c.val = 0x2029 ∨
    c.val = 0x202f ∨ c.val = 0x205f ∨ c.val = 0x3000 ∨ c.val = 0xfeff)

/-- Characters the JS regex wildcard `.` (no `s` flag) does not match. -/
def isLineTerm (c : Char) : Bool :=
  decide (c.val = 0x0a ∨ c.val = 0x0d ∨ c.val = 0x2028 ∨ c.val = 0x2029)

/-- The `(.mp4|.m4a)` group anchored at the head: a wildcard character and
the three-letter extension; returns the remainder on success. -/
def extAt (l : List Char) : Option (List Char) :=
  match l with
  | x :: 'm' :: 'p' :: '4' :: rest => if isLineTerm x then none else some rest
  | x :: 'm' :: '4' :: 'a' :: rest => if isLineTerm x then none else some rest
  | _ => none

/-- `(.mp4|.m4a)[^\s]*$` anchored at the head. -/
def extOk (l : List Char) : Bool :=
  match extAt l with
  | some r => r.all (fun c => !(isJsWhitespace c))
  | none => false

/-- `[^\s]+(.mp4|.m4a)[^\s]*$`: at least one leading non-whitespace
character, then the extension group at some later position (the
backtracking search over all split points). -/
def tailSearch : List Char → Bool
  | [] => false
  | c :: rest =>
    if isJsWhitespace c then false
    else extOk rest || tailSearch rest

/-- `regex.test(v)` for the media-URL pattern of line 175. -/
def mediaUrlTest (s : List Char) : Bool :=
  match s with
  | 'h' :: 't' :: 't' :: 'p' :: 's' :: ':' :: '/' :: '/' ::
      's' :: 's' :: 'r' :: 'w' :: 'e' :: 'b' :: c1 ::
      'z' :: 'o' :: 'o' :: 'm' :: c2 :: 'u' :: 's' :: '/' :: rest =>
    !(isLineTerm c1) && !(isLineTerm c2) && tailSearch rest
  | _ => false

/-- A JSON field value as seen by `Object.values` and `typeof`. -/
inductive JsValue where
  | str (s : List Char)
  | num (n : Int)
  | boolean (b : Bool)
  | null
  | obj
deriving DecidableEq, Repr

/-- One clip's play-info `result` object: the typed fields the pipeline
reads, plus the remaining `Record<string, unknown>` fields among which the
media URLs live. -/
structure PlayInfo where
  topic : List Char
  totalClips : Nat
  currentClip : Int
  nextClipStartTime : Int
  fields : List (List Char × JsValue)
deriving DecidableEq, Repr

/-- `Object.values(playInfo)`: the typed fields (`meet` is an object, the
clip counters are numbers) together with every remaining field value. -/
def jsValues (pi : PlayInfo) : List JsValue :=
  JsValue.obj :: JsValue.num pi.totalClips :: JsValue.num pi.currentClip ::
    JsValue.num pi.nextClipStartTime :: pi.fields.map Prod.snd

/-- The `typeof v === 'string' && regex.test(v)` filter of lines 174-175. -/
def stringFieldFilter (v : JsValue) : Option (List Char) :=
  match v with
  | .str s => if mediaUrlTest s then some s else none
  | _ => none

/-- The `new Set(...)` of line 172 as a duplicate-free list. -/
def extractMediaUrls (pi : PlayInfo) : List (List Char) :=
  ((jsValues pi).filterMap stringFieldFilter).dedup

lemma stringFieldFilter_eq_some (v : JsValue) (s : List Char) :
    stringFieldFilter v = some s ↔ v = JsValue.str s ∧ mediaUrlTest s = true := by
  cases v with
  | str t =>
    simp only [stringFieldFilter]
    by_cases ht : mediaUrlTest t
    · rw [if_pos ht]
      constructor
      · intro h
        injection h with h1
        subst h1
        exact ⟨rfl, ht⟩
      · intro ⟨h1, _⟩
        injection h1 with h2
        rw [h2]
    · rw [if_neg ht]
      constructor
      · intro h; exact absurd h (by simp)
      · intro ⟨h1, h2⟩
        injection h1 with h2e
        subst h2e
        exact absurd h2 (by simp [ht])
  | num n => simp [stringFieldFilter]
  | boolean b => simp [stringFieldFilter]
  | null => simp [stringFieldFilter]
  | obj => simp [stringFieldFilter]

/-- C6: `extractMediaUrls` is duplicate-free and contains exactly the
string-typed field values that pass the media-host-and-extension pattern;
every other field, of whatever type, is excluded, and repeated identical
URLs collapse to one element. -/
theorem extractMediaUrls_spec (pi : PlayInfo) :
    (extractMediaUrls pi).Nodup ∧
    ∀ s : List Char, s ∈ extractMediaUrls pi ↔
      JsValue.str s ∈ jsValues pi ∧ mediaUrlTest s = true := by
  constructor
  · exact List.nodup_dedup _
  · intro s
    unfold extractMediaUrls
    rw [List.mem_dedup, List.mem_filterMap]
    constructor
    · intro ⟨v, hv, hf⟩
      obtain ⟨h1, h2⟩ := (stringFieldFilter_eq_some v s).mp hf
      exact ⟨h1 ▸ hv, h2⟩
    · intro ⟨hmem, htest⟩
      exact ⟨JsValue.str s, hmem, (stringFieldFilter_eq_some _ s).mpr ⟨rfl, htest⟩⟩

/-! ## Play-info URL construction (src/index.ts lines 129-135 and 160)

```ts
const playInfoUrl = new URL(`/nws/recording/1.0/play/info/${fileId}`, origin);
if (shareInfo.pwd) playInfoUrl.searchParams.set('pwd', shareInfo.pwd);
playInfoUrl.searchParams.set('canPlayFromShare', 'true');
playInfoUrl.searchParams.set('from', 'share_recording_detail');
playInfoUrl.searchParams.set('continueMode', 'true');
playInfoUrl.searchParams.set('componentName', 'rec-play');
...
playInfoUrl.searchParams.set('startTime', nextClipStartTime.toString());
```
-/

/-- The mutable URL the clip loop keeps re-using: its path and its search
parameter list (the origin plays no role in the claims). -/
structure UrlWithParams where
  path : List Char
  params : List (List Char × List Char)
deriving DecidableEq, Repr

/-- `URLSearchParams.set`: overwrite the first pair with the given name in
place (removing any later pairs of that name), or append a new pair. -/
def setParam : List (List Char × List Char) → List Char → List Char →
    List (List Char × List Char)
  | [], k, v => [(k, v)]
  | (k0, v0) :: rest, k, v =>
    if k0 = k then (k, v) :: rest.filter (fun p => decide (p.1 ≠ k))
    else (k0, v0) :: setParam rest k v

/-- `URLSearchParams.get`: the value of the first pair with that name. -/
def getParam (ps : List (List Char × List Char)) (k : List Char) :
    Option (List Char) :=
  (ps.find? (fun p => decide (p.1 = k))).map Prod.snd

/-- Lines 129-135: the play-info URL as first constructed, with the
FileHandle in the path, the optional password, and the four fixed marker
parameters, in source order. -/
def mkPlayInfoUrl (fileId : List Char) (pwd : Option (List Char)) : UrlWithParams :=
  let u0 : UrlWithParams := ⟨"/nws/recording/1.0/play/info/".data ++ fileId, []⟩
  let u1 : UrlWithParams :=
    match pwd with
    | some p => { u0 with params := setParam u0.params ("pwd".data) p }
    | none => u0
  let u2 := { u1 with params := setParam u1.params ("canPlayFromShare".data) ("true".data) }
  let u3 := { u2 with params := setParam u2.params ("from".data) ("share_recording_detail".data) }
  let u4 := { u3 with params := setParam u3.params ("continueMode".data) ("true".data) }
  { u4 with params := setParam u4.params ("componentName".data) ("rec-play".data) }

/-- Line 160: each follow-up clip request overwrites only `startTime`. -/
def setStartTime (u : UrlWithParams) (t : Int) : UrlWithParams :=
  { u with params := setParam u.params ("startTime".data) (toString t).data }

/-- The play-info URL in effect after any sequence of follow-up-cursor
assignments: `cursors = []` is the initial request, and each later entry
is one follow-up clip request. -/
def playInfoUrlAtStep (fileId : List Char) (pwd : Option (List Char))
    (cursors : List Int) : UrlWithParams :=
  cursors.foldl setStartTime (mkPlayInfoUrl fileId pwd)

lemma getParam_cons_ne (k0 v0 k2 : List Char)
    (ps : List (List Char × List Char)) (h : k0 ≠ k2) :
    getParam ((k0, v0) :: ps) k2 = getParam ps k2 := by
  unfold getParam
  rw [List.find?_cons_of_neg _ (by simp [h])]

lemma getParam_cons_self (k0 v0 : List Char) (ps : List (List Char × List Char)) :
    getParam ((k0, v0) :: ps) k0 = some v0 := by
  unfold getParam
  rw [List.find?_cons_of_pos _ (by simp)]
  rfl

lemma getParam_filter_ne (ps : List (List Char × List Char)) (k k2 : List Char)
    (h : k2 ≠ k) :
    getParam (ps.filter (fun p => decide (p.1 ≠ k))) k2 = getParam ps k2 := by
  induction ps with
  | nil => rfl
  | cons p rest ih =>
    obtain ⟨k0, v0⟩ := p
    rw [List.filter_cons]
    by_cases hk0 : k0 = k
    · subst hk0
      rw [if_neg (by simp)]
      rw [ih, getParam_cons_ne _ v0 _ rest (fun he => h he.symm)]
    · rw [if_pos (by simp [hk0])]
      by_cases hk02 : k0 = k2
      · subst hk02
        rw [getParam_cons_self, getParam_cons_self]
      · rw [getParam_cons_ne _ _ _ _ hk02, getParam_cons_ne _ _ _ _ hk02]
        exact ih

lemma getParam_setParam (ps : List (List Char × List Char)) (k v k2 : List Char) :
    getParam (setParam ps k v) k2 =
      if k2 = k then some v else getParam ps k2 := by
  induction ps with
  | nil =>
    rw [setParam]
    by_cases hk : k2 = k
    · subst hk
      rw [if_pos rfl, getParam_cons_self]
    · rw [if_neg hk, getParam_cons_ne _ _ _ _ (fun he => hk he.symm)]
  | cons p rest ih =>
    obtain ⟨k0, v0⟩ := p
    rw [setParam]
    by_cases hk0 : k0 = k
    · subst hk0
      rw [if_pos rfl]
      by_cases hk2 : k2 = k0
      · subst hk2
        rw [if_pos rfl, getParam_cons_self]
      · rw [if_neg hk2,
          getParam_cons_ne _ _ _ _ (fun he => hk2 he.symm),
          getParam_cons_ne _ _ _ _ (fun he => hk2 he.symm)]
        exact getParam_filter_ne rest k0 k2 hk2
    · rw [if_neg hk0]
      by_cases hk02 : k0 = k2
      · subst hk02
        rw [if_neg (fun he : k0 = k => hk0 he), getParam_cons_self,
          getParam_cons_self]
      · rw [getParam_cons_ne _ _ _ _ hk02, getParam_cons_ne _ _ _ _ hk02]
        exact ih

lemma foldl_setStartTime_path (cursors : List Int) (u : UrlWithParams) :
    (cursors.foldl setStartTime u).path = u.path := by
  induction cursors generalizing u with
  | nil => rfl
  | cons t ts ih =>
    rw [List.foldl_cons, ih]
    rfl

lemma foldl_setStartTime_getParam (cursors : List Int) (u : UrlWithParams)
    (key : List Char) (h : key ≠ "startTime".data) :
    getParam (cursors.foldl setStartTime u).params key = getParam u.params key := by
  induction cursors generalizing u with
  | nil => rfl
  | cons t ts ih =>
    rw [List.foldl_cons, ih]
    show getParam (setParam u.params ("startTime".data) (toString t).data) key = _
    rw [getParam_setParam, if_neg h]

/-- C9: every play-info request URL — the initial one and every follow-up
clip request — carries the FileHandle in its path, the password parameter
whenever ShareInfo carried one, and the four fixed marker parameters
verbatim. -/
theorem playInfoUrl_params (fileId : List Char) (pwd : Option (List Char))
    (cursors : List Int) :
    (playInfoUrlAtStep fileId pwd cursors).path =
      "/nws/recording/1.0/play/info/".data ++ fileId ∧
    getParam (playInfoUrlAtStep fileId pwd cursors).params ("canPlayFromShare".data) =
      some ("true".data) ∧
    getParam (playInfoUrlAtStep fileId pwd cursors).params ("from".data) =
      some ("share_recording_detail".data) ∧
    getParam (playInfoUrlAtStep fileId pwd cursors).params ("continueMode".data) =
      some ("true".data) ∧
    getParam (playInfoUrlAtStep fileId pwd cursors).params ("componentName".data) =
      some ("rec-play".data) ∧
    (∀ p, pwd = some p →
      getParam (playInfoUrlAtStep fileId pwd cursors).params ("pwd".data) = some p) := by
  unfold playInfoUrlAtStep
  refine ⟨?_, ?_, ?_, ?_, ?_, ?_⟩
  · rw [foldl_setStartTime_path]
    cases pwd <;> rfl
  · rw [foldl_setStartTime_getParam _ _ _ (by decide)]
    cases pwd <;>
      simp [mkPlayInfoUrl, getParam_setParam]
  · rw [foldl_setStartTime_getParam _ _ _ (by decide)]
    cases pwd <;>
      simp [mkPlayInfoUrl, getParam_setParam]
  · rw [foldl_setStartTime_getParam _ _ _ (by decide)]
    cases pwd <;>
      simp [mkPlayInfoUrl, getParam_setParam]
  · rw [foldl_setStartTime_getParam _ _ _ (by decide)]
    cases pwd <;>
      simp [mkPlayInfoUrl, getParam_setParam]
  · intro p hp
    subst hp
    rw [foldl_setStartTime_getParam _ _ _ (by decide)]
    simp [mkPlayInfoUrl, getParam_setParam]

/-- Witness for C9 at a concrete FileHandle, password and two follow-up
cursors. -/
theorem playInfoUrl_params_witness :
    getParam (playInfoUrlAtStep ("fid789".data) (some ("xyz".data)) [7, 9]).params
      ("pwd".data) = some ("xyz".data) :=
  (playInfoUrl_params ("fid789".data) (some ("xyz".data)) [7, 9]).2.2.2.2.2
    ("xyz".data) rfl

/-! ## The clip loop (src/index.ts lines 150-170)

```ts
let nextClipStartTime = initPlayInfo.nextClipStartTime;
for (let i = 1; i <= initPlayInfo.totalClips; i++) {
  let playInfo = initPlayInfo;
  if (i !== 1) {
    playInfoUrl.searchParams.set('startTime', nextClipStartTime.toString());
    const playInfoResponse = await fetch(playInfoUrl, { headers });
    if (!playInfoResponse.ok) throw new Error(...);
    const { result } = await playInfoResponse.json();
    playInfo = result;
    nextClipStartTime = result.nextClipStartTime;
  }
  ... // media extraction and downloads for playInfo
}
```

The network is an oracle `respond` giving, for each loop index `i ≥ 2`,
the HTTP status and parsed body of the follow-up play-info request. -/

structure PlayInfoResponse where
  ok : Bool
  result : PlayInfo
deriving DecidableEq, Repr

/-- One iteration of the clip loop: the 1-based clip index, the
`startTime` cursor sent for its request (`none` for clip 1, which reuses
the initial response), and the PlayInfo the iteration works with. -/
structure ClipStep where
  index : Nat
  sent : Option Int
  pi : PlayInfo
deriving DecidableEq, Repr

/-- Iterations `i, i+1, ...` of the loop, with `remaining` iterations
left, carrying the running `nextClipStartTime` cursor; a non-ok follow-up
response throws, which aborts the remaining iterations (second
component `true`). -/
def clipLoopGo (respond : Nat → PlayInfoResponse) :
    Int → Nat → Nat → List ClipStep × Bool
  | _, _, 0 => ([], false)
  | cursor, i, remaining + 1 =>
    let r := respond i
    if r.ok then
      let rest := clipLoopGo respond r.result.nextClipStartTime (i + 1) remaining
      (⟨i, some cursor, r.result⟩ :: rest.1, rest.2)
    else ([], true)

/-- The whole `for` loop of line 152: clip 1 issues no request and uses
the initial PlayInfo; clips `2..totalClips` are follow-up requests. -/
def runClipLoop (init : PlayInfo) (respond : Nat → PlayInfoResponse) :
    List ClipStep × Bool :=
  if init.totalClips = 0 then ([], false)
  else
    let rest := clipLoopGo respond init.nextClipStartTime 2 (init.totalClips - 1)
    (⟨1, none, init⟩ :: rest.1, rest.2)

/-- The cursor value sent at offset `j` of a run that starts at loop index
`i` with cursor `cursor`: offset 0 sends the carried cursor, offset `j+1`
sends the `nextClipStartTime` of the response at offset `j`. -/
def cursorAt (respond : Nat → PlayInfoResponse) (cursor : Int) (i : Nat) :
    Nat → Int
  | 0 => cursor
  | j + 1 => (respond (i + j)).result.nextClipStartTime

lemma clipLoopGo_ok_eq (respond : Nat → PlayInfoResponse)
    (hok : ∀ i, (respond i).ok = true) (m : Nat) :
    ∀ (cursor : Int) (i : Nat),
      clipLoopGo respond cursor i m =
        ((List.range m).map (fun j =>
          ⟨i + j, some (cursorAt respond cursor i j), (respond (i + j)).result⟩),
         false) := by
  induction m with
  | zero => intro cursor i; rfl
  | succ m ih =>
    intro cursor i
    rw [clipLoopGo]
    simp only [if_pos (hok i)]
    rw [ih ((respond i).result.nextClipStartTime) (i + 1)]
    rw [List.range_succ_eq_map]
    simp only [List.map_cons, List.map_map]
    simp only [Prod.mk.injEq, List.cons.injEq]
    refine ⟨⟨?_, ?_⟩, trivial⟩
    · simp [cursorAt]
    · apply List.map_congr_left
      intro j _
      have hidx : i + 1 + j = i + (j + 1) := by omega
      have hcur : cursorAt respond ((respond i).result.nextClipStartTime) (i + 1) j =
          cursorAt respond cursor i (j + 1) := by
        cases j with
        | zero => simp [cursorAt]
        | succ j2 =>
          show (respond (i + 1 + j2)).result.nextClipStartTime =
            (respond (i + (j2 + 1))).result.nextClipStartTime
          rw [show i + 1 + j2 = i + (j2 + 1) by omega]
      simp [Function.comp, hidx, hcur]

lemma runClipLoop_ok_eq (init : PlayInfo) (respond : Nat → PlayInfoResponse)
    (hok : ∀ i, (respond i).ok = true) (hn : 1 ≤ init.totalClips) :
    runClipLoop init respond =
      (⟨1, none, init⟩ ::
        (List.range (init.totalClips - 1)).map (fun j =>
          ⟨2 + j, some (cursorAt respond init.nextClipStartTime 2 j),
            (respond (2 + j)).result⟩),
       false) := by
  unfold runClipLoop
  rw [if_neg (by omega)]
  rw [clipLoopGo_ok_eq respond hok]

/-- C7: for a recording declaring `totalClips = n ≥ 1` whose follow-up
requests all succeed, the loop runs clips `1..n` in order, sends exactly
`n - 1` follow-up `startTime` cursors, and consecutive iterations chain:
the cursor sent for clip `j+2` is the `nextClipStartTime` of the PlayInfo
clip `j+1` worked with. -/
theorem clip_loop_cursor_chain (init : PlayInfo) (respond : Nat → PlayInfoResponse)
    (n : Nat) (hn : init.totalClips = n) (h1 : 1 ≤ n)
    (hok : ∀ i, (respond i).ok = true) :
    (runClipLoop init respond).1.length = n ∧
    (runClipLoop init respond).2 = false ∧
    (∀ (j : Nat) (h : j < (runClipLoop init respond).1.length),
      ((runClipLoop init respond).1.get ⟨j, h⟩).index = j + 1) ∧
    ((runClipLoop init respond).1.filterMap ClipStep.sent).length = n - 1 ∧
    (∀ (j : Nat) (h : j + 1 < (runClipLoop init respond).1.length),
      ((runClipLoop init respond).1.get ⟨j + 1, h⟩).sent =
        some (((runClipLoop init respond).1.get
          ⟨j, Nat.lt_of_succ_lt h⟩).pi.nextClipStartTime)) := by
  subst hn
  rw [runClipLoop_ok_eq init respond hok h1]
  refine ⟨?_, rfl, ?_, ?_, ?_⟩
  · simp
    omega
  · intro j h
    simp only [List.get_eq_getElem]
    cases j with
    | zero => rfl
    | succ j2 =>
      simp only [List.length_cons, List.length_map, List.length_range] at h
      rw [List.getElem_cons_succ, List.getElem_map, List.getElem_range]
      show 2 + j2 = j2 + 1 + 1
      omega
  · rw [List.filterMap_cons]
    simp only [ClipStep.sent]
    rw [List.filterMap_map]
    have hcomp : (ClipStep.sent ∘ fun j =>
        ClipStep.mk (2 + j) (some (cursorAt respond init.nextClipStartTime 2 j))
          ((respond (2 + j)).result)) =
        some ∘ (fun j => cursorAt respond init.nextClipStartTime 2 j) := rfl
    rw [hcomp, List.filterMap_eq_map]
    simp
  · intro j h
    simp only [List.length_cons, List.length_map, List.length_range] at h
    simp only [List.get_eq_getElem]
    rw [List.getElem_cons_succ, List.getElem_map, List.getElem_range]
    cases j with
    | zero => rfl
    | succ j2 =>
      rw [List.getElem_cons_succ, List.getElem_map, List.getElem_range]
      rfl

/-- Witness for C7: two clips, all follow-ups succeeding; the loop has
two steps and the single follow-up carries the initial
`nextClipStartTime`. -/
theorem clip_loop_cursor_chain_witness :
    (runClipLoop ⟨['T'], 2, 1, 77, []⟩ (fun _ => ⟨true, ⟨['T'], 2, 2, -1, []⟩⟩)).1.length
      = 2 ∧
    ((runClipLoop ⟨['T'], 2, 1, 77, []⟩ (fun _ => ⟨true, ⟨['T'], 2, 2, -1, []⟩⟩)).1.filterMap
      ClipStep.sent).length = 1 := by
  have h := clip_loop_cursor_chain ⟨['T'], 2, 1, 77, []⟩
    (fun _ => ⟨true, ⟨['T'], 2, 2, -1, []⟩⟩) 2 rfl (by decide) (fun _ => rfl)
  exact ⟨h.1, h.2.2.2.1⟩

/-! ## Per-clip media failures (src/index.ts lines 172-181 and 255-267)

```ts
const mediaUrls = new Set(Object.values(playInfo).filter(...));
log('│', `Found ${mediaUrls.size} media file(s).`);
for (const mediaUrl of mediaUrls) {
  try { ... } catch (e) {
    failedAttempts.push(
      trimUrlSearchParams(recShareUrl) + '\n' + trimUrlSearchParams(mediaUrl),
    );
    ...
    continue;
  }
}
```

When the set is empty the `for` body never runs: nothing is pushed and
nothing is thrown. `downloadFails` abstracts which attempts throw (HTTP
failure or stream failure). -/

/-- The failure entries one clip's media loop appends, in order. -/
def clipFailures (recShareUrl : List Char) (downloadFails : List Char → Bool)
    (pi : PlayInfo) : List (List Char) :=
  (extractMediaUrls pi).filterMap (fun m =>
    if downloadFails m then some (failedAttemptMediaEntry recShareUrl m) else none)

/-- The failure entries one ShareLink's whole clip loop appends. -/
def shareFailures (recShareUrl : List Char) (downloadFails : List Char → Bool)
    (init : PlayInfo) (respond : Nat → PlayInfoResponse) : List (List Char) :=
  ((runClipLoop init respond).1.map
    (fun st => clipFailures recShareUrl downloadFails st.pi)).flatten

/-- A clip whose PlayInfo yields zero media URLs under the media filter
(its only candidate field fails the host pattern). -/
def zeroMediaPlayInfo : PlayInfo :=
  ⟨"Weekly Sync".data, 1, 1, -1, [("videoUrl".data, JsValue.str ("gone".data))]⟩

/-- C2 counterexample: a recording whose single clip yields zero media
URLs appends NO entry to `failedAttempts` — the media loop simply has
zero iterations — and does not abort; this refutes the claim that such a
clip is recorded as a failure. -/
theorem zero_media_clip_no_failure_recorded :
    extractMediaUrls zeroMediaPlayInfo = [] ∧
    shareFailures ("https://zoom.us/rec/share/a".data) (fun _ => true)
      zeroMediaPlayInfo (fun _ => ⟨true, zeroMediaPlayInfo⟩) = [] ∧
    (runClipLoop zeroMediaPlayInfo (fun _ => ⟨true, zeroMediaPlayInfo⟩)).2 = false ∧
    (runClipLoop zeroMediaPlayInfo (fun _ => ⟨true, zeroMediaPlayInfo⟩)).1.length = 1 := by
  decide

/-- C2 amended: a clip whose PlayInfo yields zero media URLs under the
media filter is NOT recorded as a failure — no FailureRecord is appended
for it — and processing does not abort the remaining clips (the loop
still completes every clip when the play-info responses succeed). -/
theorem zero_media_clip_amended (recShareUrl : List Char)
    (downloadFails : List Char → Bool) (init : PlayInfo)
    (respond : Nat → PlayInfoResponse)
    (hok : ∀ i, (respond i).ok = true) :
    (∀ st ∈ (runClipLoop init respond).1, extractMediaUrls st.pi = [] →
      clipFailures recShareUrl downloadFails st.pi = []) ∧
    (runClipLoop init respond).2 = false ∧
    (runClipLoop init respond).1.length = init.totalClips := by
  refine ⟨?_, ?_, ?_⟩
  · intro st _ hempty
    unfold clipFailures
    rw [hempty]
    rfl
  · by_cases h0 : init.totalClips = 0
    · unfold runClipLoop
      rw [if_pos h0]
    · rw [runClipLoop_ok_eq init respond hok (by omega)]
  · by_cases h0 : init.totalClips = 0
    · unfold runClipLoop
      rw [if_pos h0]
      simp [h0]
    · rw [runClipLoop_ok_eq init respond hok (by omega)]
      simp
      omega

/-- Witness for C2's amended claim at the concrete zero-media recording. -/
theorem zero_media_clip_amended_witness :
    clipFailures ("u".data) (fun _ => true) zeroMediaPlayInfo = [] ∧
    (runClipLoop zeroMediaPlayInfo (fun _ => ⟨true, zeroMediaPlayInfo⟩)).1.length = 1 := by
  have h := zero_media_clip_amended ("u".data) (fun _ => true) zeroMediaPlayInfo
    (fun _ => ⟨true, zeroMediaPlayInfo⟩) (fun _ => rfl)
  exact ⟨h.1 ⟨1, none, zeroMediaPlayInfo⟩ (by decide) (by decide),
    h.2.2.trans (by decide)⟩

/-! ## Media download and temporary-file cleanup (src/index.ts lines 182-254)

```ts
const temporaryFilename = `${Date.now()}.part`;
try {
  ...
  const writeStream = createWriteStream(`${downloadDirectory}/${temporaryFilename}`);
  ...
  try {
    await new Promise<void>((resolve, reject) => {
      readable.on('end', () => {
        renameSync(
          `${downloadDirectory}/${temporaryFilename}`,
          `${downloadDirectory}/${filename}`,
        );
        ...
      });
      readable.on('error', () => { reject(new Error(...)); });
    });
  } finally {
    readable.removeAllListeners();
    readable.destroy();
    writeStream.end();
    if (existsSync(temporaryFilename)) unlinkSync(temporaryFilename);
  }
} catch (e) { failedAttempts.push(...); ...; continue; }
```

The file system is the list of existing paths, rooted at the process
working directory: `createWriteStream` and `renameSync` address
`downloadDirectory/…`, while the `finally` cleanup of line 253 passes the
bare `temporaryFilename` — a CWD-relative path. -/

inductive MediaOutcome where
  | ok
  | httpFail
  | streamFail
deriving DecidableEq, Repr

/-- `${downloadDirectory}/${name}`. -/
def pathJoin (dir name : List Char) : List Char := dir ++ '/' :: name

/-- `unlinkSync`. -/
def fsRemove (fs : List (List Char)) (p : List Char) : List (List Char) :=
  fs.filter (fun q => decide (q ≠ p))

/-- One media-item attempt, following the source line by line.
`httpFail`: the `!response.ok` throw of line 187 happens before the write
stream is created, so the file system is untouched. `ok`: the `end`
handler renames `dir/temp` to `dir/filename`, then the `finally` block
checks `existsSync(temporaryFilename)` — the bare name — and unlinks that
path when present. `streamFail`: the `error` handler rejects; the same
`finally` cleanup runs, then the `catch` records the failure (`true`). -/
def downloadMediaItem (fs : List (List Char))
    (downloadDirectory temporaryFilename filename : List Char)
    (outcome : MediaOutcome) : List (List Char) × Bool :=
  match outcome with
  | .httpFail => (fs, true)
  | .ok =>
    let fs1 := pathJoin downloadDirectory temporaryFilename :: fs
    let fs2 := pathJoin downloadDirectory filename ::
      fsRemove fs1 (pathJoin downloadDirectory temporaryFilename)
    let fs3 := if temporaryFilename ∈ fs2 then fsRemove fs2 temporaryFilename else fs2
    (fs3, false)
  | .streamFail =>
    let fs1 := pathJoin downloadDirectory temporaryFilename :: fs
    let fs2 := if temporaryFilename ∈ fs1 then fsRemove fs1 temporaryFilename else fs1
    (fs2, true)

def downloadDirectory0 : List Char := "2024-05-01T10-00-00.000Z".data
def temporaryFilename0 : List Char := "1714558000000.part".data
def filename0 : List Char := "Weekly Sync weekly.mp4".data

/-- C1 (code bug): on a mid-stream error, no file exists at the final
sanitized path — but the timestamp-named temporary file in the download
directory PERSISTS, and the attempt is recorded as failed: the `finally`
cleanup of line 253 tests and unlinks the bare `temporaryFilename`
(CWD-relative) instead of `${downloadDirectory}/${temporaryFilename}`,
so the check is false and the real temporary file is never removed. -/
theorem temp_file_persists_on_stream_error :
    pathJoin downloadDirectory0 filename0 ∉
      (downloadMediaItem [] downloadDirectory0 temporaryFilename0 filename0
        MediaOutcome.streamFail).1 ∧
    pathJoin downloadDirectory0 temporaryFilename0 ∈
      (downloadMediaItem [] downloadDirectory0 temporaryFilename0 filename0
        MediaOutcome.streamFail).1 ∧
    (downloadMediaItem [] downloadDirectory0 temporaryFilename0 filename0
      MediaOutcome.streamFail).2 = true := by
  decide

end ZoomRecDl
